import Mathlib

/-!
Verification of the object storage lifecycle manager of this repository
(main.py and storage.py).

Shallow embedding conventions: calendar dates and timestamps are modelled
as integers (a day index; the configured date format is order preserving,
so sorting by the formatted date string agrees with sorting by the date).
Library calls that are not code of this repository - the strptime date
parser and the S3 client operations - are modelled as oracle functions
supplied in an environment record.  Functions that mutate storage
additionally return the list of requests they issue, so that frame
properties can be stated and proved.
-/

/-- Oracles used by main.py: the strptime parser for the configured date
format (none models a ValueError), and the presigned URL generator (none
models a falsy URL or an exception, which main.py treats alike at lines
75-83). -/
structure MainEnv where
  parse : String → Option Int
  getFileUrl : String → Option String

/-- Characters of the date token: everything before the first
underscore. -/
def dateTokenChars : List Char → List Char
  | [] => []
  | c :: cs => if c = '_' then [] else c :: dateTokenChars cs

/-- The date token of a storage key: everything before the first
underscore (main.py lines 55 and 123, split at the underscore, index 0). -/
def dateToken (filename : String) : String :=
  String.mk (dateTokenChars filename.toList)

/-- Whether the second list is an initial segment of the first. -/
def startsWithList : List Char → List Char → Bool
  | _, [] => true
  | [], _ :: _ => false
  | c :: cs, p :: ps => c = p && startsWithList cs ps

/-- Whether the pattern occurs somewhere in the list. -/
def containsList (pat : List Char) : List Char → Bool
  | [] => pat.isEmpty
  | c :: cs => startsWithList (c :: cs) pat || containsList pat cs

/-- Substring test, mirroring the Python in operator on strings. -/
def containsSub (s pat : String) : Bool :=
  containsList pat.toList s.toList

/-- Suffix test, mirroring the Python endswith method. -/
def endsWithStr (s pat : String) : Bool :=
  startsWithList s.toList.reverse pat.toList.reverse

/-- The kind check of main.py line 58: the filename mentions newspaper and
has a recognised document extension. -/
def kindOK (fn : String) : Bool :=
  containsSub fn "newspaper" && (endsWithStr fn ".pdf" || endsWithStr fn ".html")

/-- Lines 51-62 of main.py: keep the files whose date token parses and
that pass the kind check, paired with their parsed date; keys whose date
token fails to parse are skipped. -/
def datedFiles (env : MainEnv) (fs : List String) : List (Int × String) :=
  fs.filterMap fun fn =>
    match env.parse (dateToken fn) with
    | none => none
    | some d => if kindOK fn then some (d, fn) else none

/-- Insertion step of the stable date-descending sort: an element moves
past entries with a strictly larger date and stops before entries whose
date is less than or equal to its own, so equal dates keep input order. -/
def insDesc {α : Type} (x : Int × α) : List (Int × α) → List (Int × α)
  | [] => [x]
  | y :: ys => if x.1 < y.1 then y :: insDesc x ys else x :: y :: ys

/-- Stable sort by date, most recent first (the Python stable sort with
the reverse flag, main.py lines 65 and 89). -/
def sortDesc {α : Type} : List (Int × α) → List (Int × α)
  | [] => []
  | x :: xs => insDesc x (sortDesc xs)

/-- Line 71 of main.py: the date filter for current links, with the
inclusive cutoff computed at line 68. -/
def inWindow (target days d : Int) : Bool :=
  decide (target - (days - 1) ≤ d) && decide (d ≤ target)

/-- One iteration body of the loop at main.py lines 70-83: a link is
produced exactly when the date is in the window and a URL is obtained. -/
def appendEntry (env : MainEnv) (target days : Int) (p : Int × String) :
    Option (Int × String) :=
  if inWindow target days p.1 then (env.getFileUrl p.2).map fun u => (p.1, u)
  else none

/-- The loop of main.py lines 70-86, with the early break at line 85 once
the number of collected links reaches the requested number of days. -/
def collectLoop (env : MainEnv) (target days : Int) :
    List (Int × String) → List (Int × String) → List (Int × String)
  | [], acc => acc
  | p :: rest, acc =>
    match appendEntry env target days p with
    | some e =>
      if days ≤ ((acc ++ [e]).length : Int) then acc ++ [e]
      else collectLoop env target days rest (acc ++ [e])
    | none =>
      if days ≤ (acc.length : Int) then acc
      else collectLoop env target days rest acc

/-- get_past_papers_from_storage of main.py (lines 33-99).  The file list
is an Option: none models list_storage_files returning None; both none and
the empty list yield no links (lines 44-46 and 93-99).  Entries carry the
parsed date and the issued URL. -/
def get_past_papers_from_storage (env : MainEnv) (allFiles : Option (List String))
    (target days : Int) : List (Int × String) :=
  match allFiles with
  | none => []
  | some fs =>
    if fs.isEmpty then []
    else sortDesc (collectLoop env target days (sortDesc (datedFiles env fs)) [])

/-- cleanup_old_files of main.py (lines 102-147), returning the keys that
are submitted to delete_from_storage: those whose parsed date is strictly
before the cutoff of line 117; keys whose date token fails to parse are
skipped (lines 137-139). -/
def cleanup_old_files (env : MainEnv) (allFiles : Option (List String))
    (target days : Int) : List String :=
  match allFiles with
  | none => []
  | some fs =>
    if fs.isEmpty then []
    else fs.filter fun fn =>
      match env.parse (dateToken fn) with
      | some d => decide (d < target - days)
      | none => false

/-- A stored object as enumerated by the paginated listing: key and last
modified time (modelled at day granularity). -/
structure SObj where
  key : String
  lastModified : Int
deriving DecidableEq

/-- Outcome of one delete_objects call: a ClientError, or a response with
the per-key Deleted and Errors lists. -/
inductive DelResp where
  | clientError : DelResp
  | ok (deleted : List String) (errors : List (String × String)) : DelResp
deriving DecidableEq

/-- Oracles used by storage.delete_old_files: client availability, the
current time, the paginated listing (error models a ClientError raised
while listing; a page whose Contents entry is absent is none), and the
bulk delete call. -/
structure DelEnv where
  clientOk : Bool
  now : Int
  listPages : Except Unit (List (Option (List SObj)))
  deleteObjects : List String → DelResp

/-- Lines 274-276 of storage.py (and 220-222 of list_archive_files):
concatenate the Contents of every page that has one, in page order. -/
def flattenPages (pages : List (Option (List SObj))) : List SObj :=
  pages.foldl (fun acc c => match c with | some l => acc ++ l | none => acc) []

/-- Lines 274-281 of storage.py: the keys of the objects whose
LastModified is strictly before now minus the retention period, in
enumeration order. -/
def filesToDelete (env : DelEnv) (pages : List (Option (List SObj))) (r : Int) :
    List String :=
  ((flattenPages pages).filter fun o => decide (o.lastModified < env.now - r)).map
    fun o => o.key

/-- Fuel-driven batching; with fuel at least the length of the list this
is the slicing loop of storage.py line 299 taking slices of 1000 keys. -/
def chunkGo : Nat → List String → List (List String)
  | 0, _ => []
  | _ + 1, [] => []
  | fuel + 1, x :: xs => ((x :: xs).take 1000) :: chunkGo fuel ((x :: xs).drop 1000)

/-- Partition into batches of at most 1000 keys (storage.py lines
299-300). -/
def chunk1000 (l : List String) : List (List String) :=
  chunkGo l.length l

/-- The batch loop of storage.py lines 298-324: each batch issues one
delete_objects call; the Deleted count accumulates and the Errors entries
are logged; a ClientError aborts the loop (lines 321-324), returning the
count accumulated so far.  The result is the returned count, the list of
issued batches, and the logged error entries. -/
def runBatches (env : DelEnv) : List (List String) → Nat →
    Nat × List (List String) × List (String × String)
  | [], acc => (acc, [], [])
  | b :: rest, acc =>
    match env.deleteObjects b with
    | DelResp.clientError => (acc, [b], [])
    | DelResp.ok dels errs =>
      let r := runBatches env rest (acc + dels.length)
      (r.1, b :: r.2.1, errs ++ r.2.2)

/-- The Deleted count one delete_objects response reports for a batch
(storage.py lines 310-311). -/
def delCount (env : DelEnv) (b : List String) : Nat :=
  match env.deleteObjects b with
  | DelResp.ok dels _ => dels.length
  | DelResp.clientError => 0

/-- The Errors entries one delete_objects response reports for a batch
(storage.py lines 315-317). -/
def delErrs (env : DelEnv) (b : List String) : List (String × String) :=
  match env.deleteObjects b with
  | DelResp.ok _ errs => errs
  | DelResp.clientError => []

/-- delete_old_files of storage.py (lines 259-333).  Returns the count the
function returns, together with the issued delete batches and the logged
per-key error entries.  A missing client, a listing failure and an empty
expired set all return a plain zero (lines 261-264, 283-285, 327-333). -/
def delete_old_files (env : DelEnv) (retention_days : Int) (dry_run : Bool) :
    Nat × List (List String) × List (String × String) :=
  if !env.clientOk then (0, [], [])
  else
    match env.listPages with
    | .error _ => (0, [], [])
    | .ok pages =>
      let ftd := filesToDelete env pages retention_days
      if ftd.isEmpty then (0, [], [])
      else if dry_run then (ftd.length, [], [])
      else runBatches env (chunk1000 ftd) 0

/-- delete_from_storage of storage.py (lines 112-139): returns the boolean
result and whether a delete_object call was issued; callOk models the
outcome of the actual call. -/
def delete_from_storage (clientOk : Bool) (callOk : Bool) (dry_run : Bool) :
    Bool × Bool :=
  if !clientOk then (false, false)
  else if dry_run then (true, false)
  else (callOk, true)

/-- One response of list_objects_v2 as consumed by list_storage_files:
either a ClientError, or a page with an optional Contents list and the
IsTruncated flag. -/
inductive LResp where
  | err : LResp
  | page (contents : Option (List String)) (isTruncated : Bool) : LResp
deriving DecidableEq

/-- The pagination loop of storage.py lines 166-172: while the previous
response was truncated, fetch the next one and append its keys; a missing
response, a ClientError or a page without Contents (a KeyError) all make
the whole call return None (lines 175-184). -/
def listLoop : List LResp → List String → Option (List String)
  | [], _ => none
  | LResp.err :: _, _ => none
  | LResp.page none _ :: _, _ => none
  | LResp.page (some ks) trunc :: rest, acc =>
    if trunc then listLoop rest (acc ++ ks) else some (acc ++ ks)

/-- list_storage_files of storage.py (lines 141-184): a first response
without Contents returns the empty list (lines 158-160); further pages are
followed while truncated; any error yields None. -/
def list_storage_files (clientOk : Bool) (responses : List LResp) :
    Option (List String) :=
  if !clientOk then none
  else
    match responses with
    | [] => none
    | LResp.err :: _ => none
    | LResp.page none _ :: _ => some []
    | LResp.page (some ks) trunc :: rest =>
      if trunc then listLoop rest ks else some ks

/-- list_archive_files of storage.py (lines 200-231): dry run returns the
two dummy entries of lines 210-213 without contacting the store; a
ClientError or unexpected exception returns the empty list (lines
225-231). -/
def list_archive_files (clientOk : Bool) (now : Int) (pfx : String)
    (store : Except Unit (List (Option (List SObj)))) (dry_run : Bool) :
    List SObj :=
  if !clientOk then []
  else if dry_run then
    [⟨pfx ++ "dummy_archive_1.pdf", now - 1⟩, ⟨pfx ++ "dummy_archive_2.pdf", now - 2⟩]
  else
    match store with
    | .error _ => []
    | .ok pages => flattenPages pages

/-- Encode N pages as well-formed list_objects_v2 responses: truncated on
every page but the last. -/
def mkResponses : List (List String) → List LResp
  | [] => []
  | [p] => [LResp.page (some p) false]
  | p :: q :: rest => LResp.page (some p) true :: mkResponses (q :: rest)

/-- Encode pages that all claim further truncation, so that the lister
keeps following the continuation token into whatever follows. -/
def pagesTrunc (pages : List (List String)) : List LResp :=
  pages.map fun p => LResp.page (some p) true

/-- Digit accumulator for the concrete test parser. -/
def natOfDigitsGo : List Char → Nat → Option Nat
  | [], acc => some acc
  | c :: cs, acc =>
    if 48 ≤ c.toNat ∧ c.toNat ≤ 57 then natOfDigitsGo cs (acc * 10 + (c.toNat - 48))
    else none

/-- Concrete test parser: a nonempty all-digit token denotes that number
as a day index. -/
def parseIntToken (s : String) : Option Int :=
  match s.toList with
  | [] => none
  | c :: cs => (natOfDigitsGo (c :: cs) 0).map Int.ofNat

/-- Concrete oracle for witnesses: date tokens are plain integer literals
and every URL request succeeds. -/
def env0 : MainEnv :=
  ⟨parseIntToken, fun fn => some ("u/" ++ fn)⟩

/-- Four dated documents, two of them sharing the most recent date. -/
def filesC9 : List String :=
  ["10_newspaper.pdf", "10_b_newspaper.pdf", "9_newspaper.pdf", "8_newspaper.pdf"]

/-- Three dated documents, two of them sharing the most recent date. -/
def filesC10 : List String :=
  ["10_newspaper.pdf", "10_b_newspaper.pdf", "9_newspaper.pdf"]

/-- A single listing page holding 1001 expired objects. -/
def pagesC4 : List (Option (List SObj)) :=
  [some (List.replicate 1001 ⟨"k", 0⟩)]

/-- Purge environment in which every bulk delete call raises a
ClientError. -/
def envC4 : DelEnv :=
  ⟨true, 10, .ok pagesC4, fun _ => DelResp.clientError⟩

/-- Purge environment whose listing fails with a ClientError. -/
def envListErr : DelEnv :=
  ⟨true, 0, .error (), fun _ => DelResp.ok [] []⟩

/-- Purge environment whose listing succeeds and finds nothing. -/
def envListEmpty : DelEnv :=
  ⟨true, 0, .ok [], fun _ => DelResp.ok [] []⟩

/-- Two dated documents on distinct dates. -/
def filesC2 : List String :=
  ["10_newspaper.pdf", "9_newspaper.pdf"]

/-- One listing page with one expired and one fresh object. -/
def pagesC6 : List (Option (List SObj)) :=
  [some [⟨"a", 0⟩, ⟨"b", 9⟩]]

/-- Purge environment over pagesC6 whose bulk deletes report no outcome
entries. -/
def envC6 : DelEnv :=
  ⟨true, 10, .ok pagesC6, fun _ => DelResp.ok [] []⟩

/-- Purge environment over pagesC6 whose bulk deletes succeed, echo the
batch and report one per-key error entry. -/
def envOkBatch : DelEnv :=
  ⟨true, 10, .ok pagesC6, fun b => DelResp.ok b [("x", "m")]⟩

/-! ### Helper lemmas: the stable date-descending sort -/

theorem gp_none (env : MainEnv) (target days : Int) :
    get_past_papers_from_storage env none target days = [] := rfl

theorem gp_some (env : MainEnv) (fs : List String) (target days : Int) :
    get_past_papers_from_storage env (some fs) target days =
      if fs.isEmpty then []
      else sortDesc (collectLoop env target days (sortDesc (datedFiles env fs)) []) := rfl

theorem cleanup_none (env : MainEnv) (target days : Int) :
    cleanup_old_files env none target days = [] := rfl

theorem cleanup_some (env : MainEnv) (fs : List String) (target days : Int) :
    cleanup_old_files env (some fs) target days =
      if fs.isEmpty then []
      else fs.filter fun fn =>
        match env.parse (dateToken fn) with
        | some d => decide (d < target - days)
        | none => false := rfl

theorem insDesc_perm {α : Type} (x : Int × α) (l : List (Int × α)) :
    List.Perm (insDesc x l) (x :: l) := by
  induction l with
  | nil => exact List.Perm.refl _
  | cons y ys ih =>
    by_cases h : x.1 < y.1
    · simp only [insDesc, if_pos h]
      exact (ih.cons y).trans (List.Perm.swap x y ys)
    · simp only [insDesc, if_neg h]
      exact List.Perm.refl _

theorem sortDesc_perm {α : Type} (l : List (Int × α)) : List.Perm (sortDesc l) l := by
  induction l with
  | nil => exact List.Perm.refl _
  | cons x xs ih => exact (insDesc_perm x (sortDesc xs)).trans (ih.cons x)

theorem mem_sortDesc {α : Type} {a : Int × α} {l : List (Int × α)} :
    a ∈ sortDesc l ↔ a ∈ l :=
  (sortDesc_perm l).mem_iff

theorem length_sortDesc {α : Type} (l : List (Int × α)) :
    (sortDesc l).length = l.length :=
  (sortDesc_perm l).length_eq

/-! ### Helper lemmas: the link-collection loop -/

theorem appendEntry_some {env : MainEnv} {target days : Int} {p e : Int × String}
    (h : appendEntry env target days p = some e) :
    e.1 = p.1 ∧ target - (days - 1) ≤ p.1 ∧ p.1 ≤ target := by
  unfold appendEntry at h
  by_cases hw : inWindow target days p.1
  · rw [if_pos hw] at h
    rcases Option.map_eq_some'.mp h with ⟨u, _, he⟩
    have hb : target - (days - 1) ≤ p.1 ∧ p.1 ≤ target := by
      simpa [inWindow] using hw
    exact ⟨by rw [← he], hb.1, hb.2⟩
  · rw [if_neg hw] at h
    cases h

theorem collectLoop_eq_append (env : MainEnv) (target days : Int)
    (l : List (Int × String)) : ∀ acc, ∃ l2, l2 <+: l ∧
      collectLoop env target days l acc =
        acc ++ l2.filterMap (appendEntry env target days) := by
  induction l with
  | nil =>
    intro acc
    exact ⟨[], List.nil_prefix, by simp [collectLoop]⟩
  | cons p rest ih =>
    intro acc
    cases happ : appendEntry env target days p with
    | none =>
      simp only [collectLoop, happ]
      by_cases hbrk : days ≤ (acc.length : Int)
      · rw [if_pos hbrk]
        exact ⟨[], List.nil_prefix, by simp⟩
      · rw [if_neg hbrk]
        obtain ⟨l2, hpre, heq⟩ := ih acc
        obtain ⟨t, ht⟩ := hpre
        exact ⟨p :: l2, ⟨t, by rw [List.cons_append, ht]⟩,
          by rw [heq, List.filterMap_cons, happ]⟩
    | some e =>
      simp only [collectLoop, happ]
      by_cases hbrk : days ≤ (((acc ++ [e]).length : Nat) : Int)
      · rw [if_pos hbrk]
        exact ⟨[p], ⟨rest, rfl⟩, by simp [List.filterMap_cons, happ]⟩
      · rw [if_neg hbrk]
        obtain ⟨l2, hpre, heq⟩ := ih (acc ++ [e])
        obtain ⟨t, ht⟩ := hpre
        refine ⟨p :: l2, ⟨t, by rw [List.cons_append, ht]⟩, ?_⟩
        rw [heq, List.filterMap_cons, happ]
        simp

theorem gp_mem_window {env : MainEnv} {allFiles : Option (List String)}
    {target days : Int} {e : Int × String}
    (h : e ∈ get_past_papers_from_storage env allFiles target days) :
    target - (days - 1) ≤ e.1 ∧ e.1 ≤ target := by
  cases allFiles with
  | none => simp [get_past_papers_from_storage] at h
  | some fs =>
    rw [gp_some] at h
    by_cases hfs : fs.isEmpty
    · rw [if_pos hfs] at h
      simp at h
    · rw [if_neg hfs] at h
      rw [mem_sortDesc] at h
      obtain ⟨l2, _, heq⟩ :=
        collectLoop_eq_append env target days (sortDesc (datedFiles env fs)) []
      rw [heq, List.nil_append] at h
      obtain ⟨p, _, hsome⟩ := List.mem_filterMap.mp h
      obtain ⟨h1, h2, h3⟩ := appendEntry_some hsome
      rw [h1]
      exact ⟨h2, h3⟩

theorem collectLoop_length_le (env : MainEnv) (target days : Int)
    (l : List (Int × String)) : ∀ acc, (acc.length : Int) < days →
      ((collectLoop env target days l acc).length : Int) ≤ days := by
  induction l with
  | nil =>
    intro acc h
    simpa [collectLoop] using le_of_lt h
  | cons p rest ih =>
    intro acc h
    cases happ : appendEntry env target days p with
    | none =>
      simp only [collectLoop, happ]
      by_cases hbrk : days ≤ (acc.length : Int)
      · rw [if_pos hbrk]
        exact le_of_lt h
      · rw [if_neg hbrk]
        exact ih acc h
    | some e =>
      simp only [collectLoop, happ]
      by_cases hbrk : days ≤ (((acc ++ [e]).length : Nat) : Int)
      · rw [if_pos hbrk]
        simp only [List.length_append, List.length_cons, List.length_nil]
        push_cast
        omega
      · rw [if_neg hbrk]
        exact ih (acc ++ [e]) (lt_of_not_le hbrk)

theorem collectLoop_length_ge (env : MainEnv) (target days : Int)
    (l : List (Int × String)) : ∀ acc, (acc.length : Int) ≤ days →
      days ≤ (acc.length : Int) +
        (l.countP fun p => (appendEntry env target days p).isSome : Nat) →
      days ≤ ((collectLoop env target days l acc).length : Int) := by
  induction l with
  | nil =>
    intro acc h1 h2
    simpa [collectLoop] using h2
  | cons p rest ih =>
    intro acc h1 h2
    cases happ : appendEntry env target days p with
    | none =>
      rw [List.countP_cons] at h2
      simp only [happ, Option.isSome_none, cond_false] at h2
      simp only [collectLoop, happ]
      by_cases hbrk : days ≤ (acc.length : Int)
      · rw [if_pos hbrk]
        exact hbrk
      · rw [if_neg hbrk]
        exact ih acc h1 (by push_cast at h2 ⊢; omega)
    | some e =>
      rw [List.countP_cons] at h2
      simp only [happ, Option.isSome_some, cond_true] at h2
      simp only [collectLoop, happ]
      by_cases hbrk : days ≤ (((acc ++ [e]).length : Nat) : Int)
      · rw [if_pos hbrk]
        exact hbrk
      · rw [if_neg hbrk]
        refine ih (acc ++ [e]) (le_of_lt (lt_of_not_le hbrk)) ?_
        simp only [List.length_append, List.length_cons, List.length_nil] at *
        push_cast at h2 ⊢
        omega

theorem length_filterMap_countP {α β : Type} (f : α → Option β) (l : List α) :
    (l.filterMap f).length = l.countP fun a => (f a).isSome := by
  induction l with
  | nil => rfl
  | cons a l ih =>
    cases h : f a <;>
      simp [List.filterMap_cons, h, List.countP_cons, ih]

theorem collectLoop_no_break (env : MainEnv) (target days : Int)
    (l : List (Int × String)) : ∀ acc, (acc.length : Int) +
        (l.countP fun p => (appendEntry env target days p).isSome : Nat) ≤ days →
      collectLoop env target days l acc =
        acc ++ l.filterMap (appendEntry env target days) := by
  induction l with
  | nil =>
    intro acc _
    simp [collectLoop]
  | cons p rest ih =>
    intro acc h
    cases happ : appendEntry env target days p with
    | none =>
      rw [List.countP_cons] at h
      simp only [happ, Option.isSome_none, cond_false] at h
      simp only [collectLoop, happ, List.filterMap_cons]
      by_cases hbrk : days ≤ (acc.length : Int)
      · rw [if_pos hbrk]
        have hc : (rest.countP fun p => (appendEntry env target days p).isSome) = 0 := by
          push_cast at h
          omega
        have : rest.filterMap (appendEntry env target days) = [] := by
          rw [← List.length_eq_zero, length_filterMap_countP]
          exact hc
        rw [this, List.append_nil]
      · rw [if_neg hbrk]
        exact ih acc (by push_cast at h ⊢; omega)
    | some e =>
      rw [List.countP_cons] at h
      simp only [happ, Option.isSome_some, cond_true] at h
      simp only [collectLoop, happ, List.filterMap_cons]
      by_cases hbrk : days ≤ (((acc ++ [e]).length : Nat) : Int)
      · rw [if_pos hbrk]
        have hc : (rest.countP fun p => (appendEntry env target days p).isSome) = 0 := by
          simp only [List.length_append, List.length_cons, List.length_nil] at hbrk
          push_cast at h hbrk
          omega
        have : rest.filterMap (appendEntry env target days) = [] := by
          rw [← List.length_eq_zero, length_filterMap_countP]
          exact hc
        simp [this]
      · rw [if_neg hbrk]
        rw [ih (acc ++ [e]) (by
          simp only [List.length_append, List.length_cons, List.length_nil]
          push_cast at h ⊢
          omega)]
        simp

theorem collectLoop_nonpos (env : MainEnv) (target days : Int) (hd : days ≤ 0)
    (l : List (Int × String)) : collectLoop env target days l [] = [] := by
  cases l with
  | nil => rfl
  | cons p rest =>
    have happ : appendEntry env target days p = none := by
      unfold appendEntry
      rw [if_neg]
      intro hw
      have : target - (days - 1) ≤ p.1 ∧ p.1 ≤ target := by simpa [inWindow] using hw
      omega
    simp only [collectLoop, happ]
    rw [if_pos (by simpa using hd)]

theorem gp_days_nonpos (env : MainEnv) (allFiles : Option (List String))
    (target days : Int) (hd : days ≤ 0) :
    get_past_papers_from_storage env allFiles target days = [] := by
  cases allFiles with
  | none => rfl
  | some fs =>
    rw [gp_some]
    by_cases hfs : fs.isEmpty
    · rw [if_pos hfs]
    · rw [if_neg hfs, collectLoop_nonpos env target days hd]
      rfl

theorem filterMap_fst_sublist (env : MainEnv) (target days : Int)
    (l : List (Int × String)) :
    List.Sublist ((l.filterMap (appendEntry env target days)).map Prod.fst)
      (l.map Prod.fst) := by
  induction l with
  | nil => simp
  | cons p rest ih =>
    cases happ : appendEntry env target days p with
    | none =>
      simp only [List.filterMap_cons, happ, List.map_cons]
      exact ih.cons _
    | some e =>
      have he : e.1 = p.1 := (appendEntry_some happ).1
      simp only [List.filterMap_cons, happ, List.map_cons]
      rw [he]
      exact ih.cons₂ _

theorem countP_congr_mem {α : Type} (p q : α → Bool) (l : List α)
    (h : ∀ a ∈ l, p a = q a) : l.countP p = l.countP q := by
  induction l with
  | nil => rfl
  | cons a l ih =>
    rw [List.countP_cons, List.countP_cons, h a (List.mem_cons_self a l),
      ih fun b hb => h b (List.mem_cons_of_mem a hb)]

/-! ### Helper lemmas: batching and the purge loop -/

theorem runBatches_ok (env : DelEnv)
    (hok : ∀ b, env.deleteObjects b ≠ DelResp.clientError)
    (bs : List (List String)) : ∀ acc : Nat, runBatches env bs acc =
      (acc + (bs.map (delCount env)).sum, bs, (bs.map (delErrs env)).flatten) := by
  induction bs with
  | nil =>
    intro acc
    simp [runBatches]
  | cons b rest ih =>
    intro acc
    cases h : env.deleteObjects b with
    | clientError => exact absurd h (hok b)
    | ok dels errs =>
      simp only [runBatches, h, ih, List.map_cons, List.sum_cons, List.flatten_cons,
        delCount, delErrs]
      simp [h, Nat.add_assoc, Nat.add_comm (dels.length)]

theorem chunkGo_succ (fuel : Nat) (x : String) (xs : List String) :
    chunkGo (fuel + 1) (x :: xs) =
      ((x :: xs).take 1000) :: chunkGo fuel ((x :: xs).drop 1000) := rfl

theorem chunkGo_join : ∀ (fuel : Nat) (l : List String), l.length ≤ fuel →
    (chunkGo fuel l).flatten = l := by
  intro fuel
  induction fuel with
  | zero =>
    intro l h
    rw [List.eq_nil_of_length_eq_zero (Nat.le_zero.mp h)]
    rfl
  | succ f ih =>
    intro l h
    cases l with
    | nil => rfl
    | cons x xs =>
      rw [chunkGo_succ]
      have h2 : ((x :: xs).drop 1000).length ≤ f := by
        simp only [List.length_drop, List.length_cons] at *
        omega
      rw [List.flatten_cons, ih _ h2]
      exact List.take_append_drop 1000 (x :: xs)

theorem chunkGo_mem_le : ∀ (fuel : Nat) (l b : List String),
    b ∈ chunkGo fuel l → b.length ≤ 1000 := by
  intro fuel
  induction fuel with
  | zero =>
    intro l b hb
    simp [chunkGo] at hb
  | succ f ih =>
    intro l b hb
    cases l with
    | nil => simp [chunkGo] at hb
    | cons x xs =>
      rw [chunkGo_succ] at hb
      rcases List.mem_cons.mp hb with h | h
      · rw [h, List.length_take]
        exact Nat.min_le_left 1000 _
      · exact ih _ _ h

theorem chunkGo_length : ∀ (fuel : Nat) (l : List String), l.length ≤ fuel →
    (chunkGo fuel l).length = (l.length + 999) / 1000 := by
  intro fuel
  induction fuel with
  | zero =>
    intro l h
    rw [List.eq_nil_of_length_eq_zero (Nat.le_zero.mp h)]
    rfl
  | succ f ih =>
    intro l h
    cases l with
    | nil => rfl
    | cons x xs =>
      rw [chunkGo_succ, List.length_cons]
      have h2 : ((x :: xs).drop 1000).length ≤ f := by
        simp only [List.length_drop, List.length_cons] at *
        omega
      rw [ih _ h2]
      simp only [List.length_drop, List.length_cons]
      omega

theorem chunkGo_ne (fuel : Nat) (l : List String) (hf : l.length ≤ fuel)
    (hne : l ≠ []) : ∃ fuel2, (l.drop 1000).length ≤ fuel2 ∧
      chunkGo fuel l = (l.take 1000) :: chunkGo fuel2 (l.drop 1000) := by
  cases fuel with
  | zero =>
    cases l with
    | nil => exact absurd rfl hne
    | cons x xs => simp at hf
  | succ f =>
    cases l with
    | nil => exact absurd rfl hne
    | cons x xs =>
      refine ⟨f, ?_, rfl⟩
      simp only [List.length_drop, List.length_cons] at *
      omega

theorem chunk1000_len_2500 (l : List String) (h : l.length = 2500) :
    (chunk1000 l).map List.length = [1000, 1000, 500] := by
  have hne1 : l ≠ [] := by
    intro he
    rw [he] at h
    simp at h
  obtain ⟨f2, hf2, he1⟩ := chunkGo_ne l.length l le_rfl hne1
  have hlen2 : (l.drop 1000).length = 1500 := by
    simp only [List.length_drop]
    omega
  have hne2 : l.drop 1000 ≠ [] := by
    intro he
    rw [he] at hlen2
    simp at hlen2
  obtain ⟨f3, hf3, he2⟩ := chunkGo_ne f2 (l.drop 1000) hf2 hne2
  have hlen3 : ((l.drop 1000).drop 1000).length = 500 := by
    simp only [List.length_drop]
    omega
  have hne3 : (l.drop 1000).drop 1000 ≠ [] := by
    intro he
    rw [he] at hlen3
    simp at hlen3
  obtain ⟨f4, hf4, he3⟩ := chunkGo_ne f3 ((l.drop 1000).drop 1000) hf3 hne3
  have hl4 : ((l.drop 1000).drop 1000).drop 1000 = [] := by
    apply List.eq_nil_of_length_eq_zero
    simp only [List.length_drop]
    omega
  have he4 : chunkGo f4 (((l.drop 1000).drop 1000).drop 1000) = [] := by
    rw [hl4]
    cases f4 <;> rfl
  rw [chunk1000, he1, he2, he3, he4]
  simp [List.length_take, h, hlen2, hlen3]

theorem flattenPages_go (pages : List (Option (List SObj))) : ∀ acc,
    pages.foldl (fun acc c => match c with | some l => acc ++ l | none => acc) acc =
      acc ++ (pages.filterMap id).flatten := by
  induction pages with
  | nil =>
    intro acc
    simp
  | cons c rest ih =>
    intro acc
    cases c with
    | none => simp [List.foldl_cons, List.filterMap_cons, ih]
    | some l => simp [List.foldl_cons, List.filterMap_cons, ih]

theorem flattenPages_eq (pages : List (Option (List SObj))) :
    flattenPages pages = (pages.filterMap id).flatten := by
  unfold flattenPages
  rw [flattenPages_go]
  simp

theorem delete_old_files_run (env : DelEnv) (pages : List (Option (List SObj)))
    (r : Int) (hc : env.clientOk = true) (hl : env.listPages = Except.ok pages)
    (hok : ∀ b, env.deleteObjects b ≠ DelResp.clientError) :
    delete_old_files env r false =
      (((chunk1000 (filesToDelete env pages r)).map (delCount env)).sum,
        chunk1000 (filesToDelete env pages r),
        ((chunk1000 (filesToDelete env pages r)).map (delErrs env)).flatten) := by
  unfold delete_old_files
  rw [hc, hl]
  simp only [Bool.not_true, Bool.false_eq_true, if_false]
  by_cases hf : (filesToDelete env pages r).isEmpty
  · have h0 : filesToDelete env pages r = [] := by
      cases he : filesToDelete env pages r with
      | nil => rfl
      | cons a l => rw [he] at hf; simp at hf
    rw [if_pos hf, h0]
    rfl
  · rw [if_neg hf, runBatches_ok env hok (chunk1000 (filesToDelete env pages r)) 0]
    simp

/-! ### Helper lemmas: unconditional run forms and the paginated listers -/

theorem gp_eq_run (env : MainEnv) (fs : List String) (target days : Int) :
    get_past_papers_from_storage env (some fs) target days =
      sortDesc (collectLoop env target days (sortDesc (datedFiles env fs)) []) := by
  rw [gp_some]
  by_cases h : fs.isEmpty
  · rw [if_pos h]
    have h2 : fs = [] := by
      cases fs with
      | nil => rfl
      | cons a l => simp at h
    rw [h2]
    rfl
  · rw [if_neg h]

theorem cleanup_eq_filter (env : MainEnv) (fs : List String) (target days : Int) :
    cleanup_old_files env (some fs) target days =
      fs.filter fun fn =>
        match env.parse (dateToken fn) with
        | some d => decide (d < target - days)
        | none => false := by
  rw [cleanup_some]
  by_cases h : fs.isEmpty
  · rw [if_pos h]
    have h2 : fs = [] := by
      cases fs with
      | nil => rfl
      | cons a l => simp at h
    rw [h2]
    rfl
  · rw [if_neg h]

theorem datedFiles_skip (env : MainEnv) (k : String)
    (hk : env.parse (dateToken k) = none) (xs ys : List String) :
    datedFiles env (xs ++ k :: ys) = datedFiles env (xs ++ ys) := by
  simp [datedFiles, List.filterMap_append, List.filterMap_cons, hk]

theorem listLoop_mkResponses : ∀ (pages : List (List String)) (acc : List String),
    pages ≠ [] → listLoop (mkResponses pages) acc = some (acc ++ pages.flatten) := by
  intro pages
  induction pages with
  | nil =>
    intro acc h
    exact absurd rfl h
  | cons p rest ih =>
    intro acc _
    cases rest with
    | nil => simp [mkResponses, listLoop]
    | cons q rest2 =>
      show listLoop (LResp.page (some p) true :: mkResponses (q :: rest2)) acc = _
      rw [listLoop, if_pos rfl, ih (acc ++ p) (by simp)]
      simp [List.flatten_cons, List.append_assoc]

theorem listLoop_truncErr : ∀ (pages : List (List String)) (acc : List String)
    (rest : List LResp), listLoop (pagesTrunc pages ++ LResp.err :: rest) acc = none := by
  intro pages
  induction pages with
  | nil =>
    intro acc rest
    rfl
  | cons p ps ih =>
    intro acc rest
    show listLoop (LResp.page (some p) true :: (pagesTrunc ps ++ LResp.err :: rest)) acc = none
    rw [listLoop, if_pos rfl]
    exact ih _ _

/-! ### Claim theorems -/

/-- C1: for every retention window with days at least 1 and every key
whose date token parses, an artifact dated exactly target minus days falls
in the single-day gap: no current link carries that date (current needs
date at least target minus days plus one) and no such key is submitted for
deletion by cleanup (deletion needs date strictly below target minus
days); both public operations preserve the one-day asymmetry of the two
cutoffs. -/
theorem retention_gap_day (env : MainEnv) (allFiles : Option (List String))
    (target days : Int) (_hdays : 1 ≤ days) :
    (∀ e ∈ get_past_papers_from_storage env allFiles target days,
      e.1 ≠ target - days) ∧
    (∀ fn ∈ cleanup_old_files env allFiles target days,
      env.parse (dateToken fn) ≠ some (target - days)) := by
  constructor
  · intro e he heq
    obtain ⟨h1, h2⟩ := gp_mem_window he
    omega
  · intro fn hfn heq
    cases allFiles with
    | none =>
      rw [cleanup_none] at hfn
      exact absurd hfn (List.not_mem_nil fn)
    | some fs =>
      rw [cleanup_eq_filter] at hfn
      obtain ⟨_, hpred⟩ := List.mem_filter.mp hfn
      rw [heq] at hpred
      simp at hpred

/-- Witness for C1 at a concrete input: target 10, days 3, gap date 7. -/
theorem retention_gap_day_witness :
    (∀ e ∈ get_past_papers_from_storage env0 (some filesC9) 10 3,
      e.1 ≠ 10 - 3) ∧
    (∀ fn ∈ cleanup_old_files env0 (some filesC9) 10 3,
      env0.parse (dateToken fn) ≠ some (10 - 3)) :=
  retention_gap_day env0 (some filesC9) 10 3 (by decide)

/-- C2 counterexample: over filesC10 with a 2-day window the artifact
dated 9 is a parsed Document, its date lies in the closed window from 9 to
10, and its URL is issuable, yet no current link carries date 9 - the two
duplicate links dated 10 exhaust the day cap first - so inclusion in
current is not equivalent to the date lying in the interval. -/
theorem current_selection_cap_cex :
    (9, "9_newspaper.pdf") ∈ datedFiles env0 filesC10 ∧
    inWindow 10 2 9 = true ∧
    (env0.getFileUrl "9_newspaper.pdf").isSome = true ∧
    9 ∉ (get_past_papers_from_storage env0 (some filesC10) 10 2).map Prod.fst := by
  decide

/-- C2 amended: every produced current link has its date in the closed
interval from target minus days minus one up to target (in particular
future dates are excluded); the converse inclusion of an in-window parsed
Document among the current links holds only when its URL is issued and the
day cap cannot be reached, because the code fuses URL issuance and the cap
break into the selection loop. -/
theorem current_window_selection (env : MainEnv) (fs : List String)
    (target days : Int)
    (hcap : (((datedFiles env fs).countP
      (fun p => (appendEntry env target days p).isSome) : Nat) : Int) ≤ days) :
    (∀ e ∈ get_past_papers_from_storage env (some fs) target days,
      target - (days - 1) ≤ e.1 ∧ e.1 ≤ target) ∧
    (∀ d fn u, (d, fn) ∈ datedFiles env fs → target - (days - 1) ≤ d →
      d ≤ target → env.getFileUrl fn = some u →
      (d, u) ∈ get_past_papers_from_storage env (some fs) target days) := by
  constructor
  · intro e he
    exact gp_mem_window he
  · intro d fn u hmem h1 h2 hurl
    rw [gp_eq_run]
    have hcnt : (((sortDesc (datedFiles env fs)).countP
        (fun p => (appendEntry env target days p).isSome) : Nat) : Int) ≤ days := by
      rw [(sortDesc_perm (datedFiles env fs)).countP_eq]
      exact hcap
    rw [collectLoop_no_break env target days _ [] (by simpa using hcnt)]
    rw [List.nil_append, mem_sortDesc]
    apply List.mem_filterMap.mpr
    refine ⟨(d, fn), mem_sortDesc.mpr hmem, ?_⟩
    unfold appendEntry
    rw [if_pos (by simp only [inWindow, Bool.and_eq_true, decide_eq_true_eq]; omega), hurl]
    rfl

/-- Witness for C2 at a concrete input: two documents, window of 3 days. -/
theorem current_window_selection_witness :
    (∀ e ∈ get_past_papers_from_storage env0 (some filesC2) 10 3,
      10 - (3 - 1) ≤ e.1 ∧ e.1 ≤ 10) ∧
    (∀ d fn u, (d, fn) ∈ datedFiles env0 filesC2 → 10 - (3 - 1) ≤ d →
      d ≤ 10 → env0.getFileUrl fn = some u →
      (d, u) ∈ get_past_papers_from_storage env0 (some filesC2) 10 3) :=
  current_window_selection env0 filesC2 10 3 (by decide)

/-- C5: a key whose date token fails to parse never becomes a dated
candidate for the current links, is never submitted for deletion, and its
presence in the listing changes neither operation's outcome: both run
exactly as if the key were absent, continuing with all remaining keys. -/
theorem unparseable_key_skipped (env : MainEnv) (k : String)
    (hk : env.parse (dateToken k) = none) (xs ys : List String)
    (target days : Int) :
    (∀ d : Int, (d, k) ∉ datedFiles env (xs ++ k :: ys)) ∧
    k ∉ cleanup_old_files env (some (xs ++ k :: ys)) target days ∧
    get_past_papers_from_storage env (some (xs ++ k :: ys)) target days =
      get_past_papers_from_storage env (some (xs ++ ys)) target days ∧
    cleanup_old_files env (some (xs ++ k :: ys)) target days =
      cleanup_old_files env (some (xs ++ ys)) target days := by
  refine ⟨?_, ?_, ?_, ?_⟩
  · intro d hd
    obtain ⟨fn, _, hsome⟩ := List.mem_filterMap.mp hd
    cases hp : env.parse (dateToken fn) with
    | none =>
      rw [hp] at hsome
      simp at hsome
    | some d2 =>
      rw [hp] at hsome
      by_cases hkind : kindOK fn
      · simp only [if_pos hkind] at hsome
        have hfk : fn = k := congrArg Prod.snd (Option.some.inj hsome)
        rw [hfk, hk] at hp
        cases hp
      · simp only [if_neg hkind] at hsome
        exact Option.noConfusion hsome
  · intro hmem
    rw [cleanup_eq_filter] at hmem
    obtain ⟨_, hpred⟩ := List.mem_filter.mp hmem
    rw [hk] at hpred
    simp at hpred
  · rw [gp_eq_run, gp_eq_run, datedFiles_skip env k hk xs ys]
  · rw [cleanup_eq_filter, cleanup_eq_filter, List.filter_append,
      List.filter_append, List.filter_cons]
    simp [hk]

/-- Witness for C5 at a concrete input: a key without a digit date token
between two dated documents. -/
theorem unparseable_key_skipped_witness :
    (∀ d : Int, (d, "nodate_newspaper.pdf") ∉
      datedFiles env0 (["10_newspaper.pdf"] ++ "nodate_newspaper.pdf" :: ["9_newspaper.pdf"])) ∧
    "nodate_newspaper.pdf" ∉ cleanup_old_files env0
      (some (["10_newspaper.pdf"] ++ "nodate_newspaper.pdf" :: ["9_newspaper.pdf"])) 10 3 ∧
    get_past_papers_from_storage env0
        (some (["10_newspaper.pdf"] ++ "nodate_newspaper.pdf" :: ["9_newspaper.pdf"])) 10 3 =
      get_past_papers_from_storage env0
        (some (["10_newspaper.pdf"] ++ ["9_newspaper.pdf"])) 10 3 ∧
    cleanup_old_files env0
        (some (["10_newspaper.pdf"] ++ "nodate_newspaper.pdf" :: ["9_newspaper.pdf"])) 10 3 =
      cleanup_old_files env0
        (some (["10_newspaper.pdf"] ++ ["9_newspaper.pdf"])) 10 3 :=
  unparseable_key_skipped env0 "nodate_newspaper.pdf" (by decide)
    ["10_newspaper.pdf"] ["9_newspaper.pdf"] 10 3

/-- C10: the current link sequence never holds more than days entries
(whatever the input), and duplicate documents sharing one date count
individually toward that cap, as the concrete second conjunct shows: with
a 2-day window over filesC10 the two links both carry date 10, so the
third in-window date 9 is pushed out. -/
theorem link_cap (env : MainEnv) (allFiles : Option (List String))
    (target days : Int) (hdays : 0 ≤ days) :
    ((get_past_papers_from_storage env allFiles target days).length : Int) ≤ days ∧
    (get_past_papers_from_storage env0 (some filesC10) 10 2).map Prod.fst =
      [10, 10] := by
  constructor
  · cases allFiles with
    | none => simpa [gp_none] using hdays
    | some fs =>
      rw [gp_eq_run, length_sortDesc]
      by_cases h0 : 0 < days
      · exact collectLoop_length_le env target days _ [] (by simpa using h0)
      · rw [collectLoop_nonpos env target days (le_of_not_lt h0)]
        simpa using hdays
  · decide

/-- Witness for C10 at a concrete input: a 2-day window. -/
theorem link_cap_witness :
    ((get_past_papers_from_storage env0 (some filesC10) 10 2).length : Int) ≤ 2 ∧
    (get_past_papers_from_storage env0 (some filesC10) 10 2).map Prod.fst =
      [10, 10] :=
  link_cap env0 (some filesC10) 10 2 (by decide)

/-- C9 counterexample: over filesC9 at least three distinct dated
Documents lie in the 3-day window ending at 10, yet the current links
cover only two distinct dates, because the two documents dated 10 fill the
cap individually; so, as stated, the claim is false. -/
theorem distinct_dates_shortfall :
    3 ≤ ((datedFiles env0 filesC9).map Prod.fst).dedup.countP
      (fun d => inWindow 10 3 d) ∧
    ¬ (((get_past_papers_from_storage env0 (some filesC9) 10 3).map
      Prod.fst).dedup.length = 3) := by
  decide

/-- C9 amended: when the dated Documents carry pairwise distinct dates, at
least days of them lie in the window, and URL issuance succeeds for every
in-window document, the current sequence holds exactly days entries with
pairwise distinct dates; a window of 0 days always yields an empty current
sequence.  (Duplicate dates or failed URL issuance can reduce the distinct
date count below days, as the counterexample shows.) -/
theorem distinct_window_count (env : MainEnv) (fs : List String)
    (target days : Int) (hdays : 1 ≤ days)
    (hnodup : ((datedFiles env fs).map Prod.fst).Nodup)
    (hurl : ∀ p ∈ datedFiles env fs, inWindow target days p.1 = true →
      (env.getFileUrl p.2).isSome = true)
    (hcount : days ≤ (((datedFiles env fs).countP
      (fun p => inWindow target days p.1) : Nat) : Int)) :
    ((get_past_papers_from_storage env (some fs) target days).map Prod.fst).Nodup ∧
    ((get_past_papers_from_storage env (some fs) target days).length : Int) = days ∧
    (∀ (fs2 : List String) (target2 : Int),
      get_past_papers_from_storage env (some fs2) target2 0 = []) := by
  have hsel : ∀ p ∈ sortDesc (datedFiles env fs),
      ((appendEntry env target days p).isSome) = inWindow target days p.1 := by
    intro p hp
    rw [mem_sortDesc] at hp
    unfold appendEntry
    by_cases hw : inWindow target days p.1
    · rw [if_pos hw, hw]
      simp [Option.isSome_map, hurl p hp hw]
    · simp only [if_neg hw, Option.isSome_none]
      exact ((Bool.not_eq_true _).mp fun hww => hw hww).symm
  have hcnt2 : days ≤ (((sortDesc (datedFiles env fs)).countP
      (fun p => (appendEntry env target days p).isSome) : Nat) : Int) := by
    rw [countP_congr_mem _ _ _ hsel, (sortDesc_perm (datedFiles env fs)).countP_eq]
    exact hcount
  refine ⟨?_, ?_, ?_⟩
  · obtain ⟨l2, hpre, heq⟩ :=
      collectLoop_eq_append env target days (sortDesc (datedFiles env fs)) []
    rw [gp_eq_run]
    rw [((sortDesc_perm (collectLoop env target days
      (sortDesc (datedFiles env fs)) [])).map Prod.fst).nodup_iff]
    rw [heq, List.nil_append]
    have hsub1 := filterMap_fst_sublist env target days l2
    have hsub2 : List.Sublist (l2.map Prod.fst)
        ((sortDesc (datedFiles env fs)).map Prod.fst) :=
      hpre.sublist.map Prod.fst
    have hnodup2 : ((sortDesc (datedFiles env fs)).map Prod.fst).Nodup := by
      rw [((sortDesc_perm (datedFiles env fs)).map Prod.fst).nodup_iff]
      exact hnodup
    exact hnodup2.sublist (hsub1.trans hsub2)
  · rw [gp_eq_run, length_sortDesc]
    have hle := collectLoop_length_le env target days
      (sortDesc (datedFiles env fs)) [] (by simp; omega)
    have hge := collectLoop_length_ge env target days
      (sortDesc (datedFiles env fs)) [] (by simp; omega) (by simpa using hcnt2)
    omega
  · intro fs2 target2
    exact gp_days_nonpos env (some fs2) target2 0 le_rfl

/-- Witness for the amended C9 at a concrete input: two distinct dates,
window of one day. -/
theorem distinct_window_count_witness :
    ((get_past_papers_from_storage env0 (some filesC2) 10 1).map Prod.fst).Nodup ∧
    ((get_past_papers_from_storage env0 (some filesC2) 10 1).length : Int) = 1 ∧
    (∀ (fs2 : List String) (target2 : Int),
      get_past_papers_from_storage env0 (some fs2) target2 0 = []) :=
  distinct_window_count env0 filesC2 10 1 (by decide) (by decide)
    (by decide) (by decide)

/-- C3 counterexample: a purge whose listing raises a ClientError returns
exactly the same plain zero result (count 0, no delete calls, no error
entries) as a purge over an empty store, so the two outcomes are not
distinguishable from the return value. -/
theorem listing_failure_indistinguishable :
    delete_old_files envListErr 7 false = (0, [], []) ∧
    delete_old_files envListErr 7 false = delete_old_files envListEmpty 7 false :=
  ⟨rfl, rfl⟩

/-- C3 amended: when the listing step fails, delete_old_files aborts and
returns count 0 with no delete calls issued and no error entries - the
same plain zero-count result an empty expired set produces; the listing
failure is recorded only in the log, not in the returned value. -/
theorem listing_failure_zero_report (env : DelEnv) (r : Int) (dr : Bool)
    (hl : env.listPages = Except.error ()) :
    delete_old_files env r dr = (0, [], []) := by
  unfold delete_old_files
  cases hc : env.clientOk with
  | false => simp [hc]
  | true => simp [hc, hl]

/-- Witness for the amended C3 at a concrete input. -/
theorem listing_failure_zero_report_witness :
    delete_old_files envListErr 7 true = (0, [], []) :=
  listing_failure_zero_report envListErr 7 true rfl

set_option maxRecDepth 100000 in
/-- C4 counterexample: with 1001 expired keys the purge needs two batches,
but when the first bulk-delete call raises a ClientError only one batch is
ever issued and the loop aborts, returning count 0 - the second batch is
never attempted, contradicting the claim that a total batch failure does
not abort subsequent batches. -/
theorem batch_client_error_aborts :
    (chunk1000 (filesToDelete envC4 pagesC4 1)).length = 2 ∧
    (delete_old_files envC4 1 false).2.1.length = 1 ∧
    (delete_old_files envC4 1 false).1 = 0 := by
  decide

/-- C4 amended: during a real purge, a partial batch failure (a successful
bulk-delete response that carries per-key error entries) does not abort
the remaining batches: when no bulk-delete call raises, every batch is
issued, the final count is the sum of the per-batch Deleted counts, and
the logged error entries are the concatenation of every batch's Errors;
a bulk-delete call that raises, however, aborts the remaining batches. -/
theorem partial_batch_failures_accumulate (env : DelEnv)
    (pages : List (Option (List SObj))) (r : Int)
    (hc : env.clientOk = true) (hl : env.listPages = Except.ok pages)
    (hok : ∀ b, env.deleteObjects b ≠ DelResp.clientError) :
    (delete_old_files env r false).2.1 = chunk1000 (filesToDelete env pages r) ∧
    (delete_old_files env r false).1 =
      ((chunk1000 (filesToDelete env pages r)).map (delCount env)).sum ∧
    (delete_old_files env r false).2.2 =
      ((chunk1000 (filesToDelete env pages r)).map (delErrs env)).flatten := by
  rw [delete_old_files_run env pages r hc hl hok]
  exact ⟨rfl, rfl, rfl⟩

/-- Witness for the amended C4 at a concrete input: one batch that reports
one per-key error entry. -/
theorem partial_batch_failures_accumulate_witness :
    (delete_old_files envOkBatch 3 false).2.1 =
      chunk1000 (filesToDelete envOkBatch pagesC6 3) ∧
    (delete_old_files envOkBatch 3 false).1 =
      ((chunk1000 (filesToDelete envOkBatch pagesC6 3)).map
        (delCount envOkBatch)).sum ∧
    (delete_old_files envOkBatch 3 false).2.2 =
      ((chunk1000 (filesToDelete envOkBatch pagesC6 3)).map
        (delErrs envOkBatch)).flatten :=
  partial_batch_failures_accumulate envOkBatch pagesC6 3 rfl rfl
    (fun _ h => DelResp.noConfusion h)

/-- C6: a dry-run purge issues no delete call, logs no error entries, and
returns exactly the size of the expired set computed by the retention
filter; likewise a dry-run delete_from_storage issues no delete call. -/
theorem dry_run_no_mutation (env : DelEnv) (pages : List (Option (List SObj)))
    (r : Int) (hc : env.clientOk = true) (hl : env.listPages = Except.ok pages) :
    delete_old_files env r true = ((filesToDelete env pages r).length, [], []) ∧
    (∀ c o, (delete_from_storage c o true).2 = false) := by
  constructor
  · unfold delete_old_files
    rw [hc, hl]
    simp only [Bool.not_true, Bool.false_eq_true, if_false]
    by_cases hf : (filesToDelete env pages r).isEmpty
    · have h0 : filesToDelete env pages r = [] := by
        cases he : filesToDelete env pages r with
        | nil => rfl
        | cons a l => rw [he] at hf; simp at hf
      rw [if_pos hf, h0]
      rfl
    · rw [if_neg hf, if_pos trivial]
  · intro c o
    cases c with
    | false => rfl
    | true => rfl

/-- Witness for C6 at a concrete input: one expired object of two. -/
theorem dry_run_no_mutation_witness :
    delete_old_files envC6 3 true = ((filesToDelete envC6 pagesC6 3).length, [], []) ∧
    (∀ c o, (delete_from_storage c o true).2 = false) :=
  dry_run_no_mutation envC6 pagesC6 3 rfl rfl

/-- C8: a real purge with no bulk-delete exception issues exactly the
ceiling of n over 1000 batches for n expired keys, each batch of at most
1000 keys, the batches concatenating in order to exactly the expired keys;
the returned count is the sum of the per-batch Deleted counts even when
batches report per-key errors; and 2500 expired keys yield batches of
sizes 1000, 1000 and 500. -/
theorem batch_partitioning (env : DelEnv) (pages : List (Option (List SObj)))
    (r : Int) (hc : env.clientOk = true) (hl : env.listPages = Except.ok pages)
    (hok : ∀ b, env.deleteObjects b ≠ DelResp.clientError) :
    (delete_old_files env r false).2.1.length =
      ((filesToDelete env pages r).length + 999) / 1000 ∧
    (∀ b ∈ (delete_old_files env r false).2.1, b.length ≤ 1000) ∧
    (delete_old_files env r false).2.1.flatten = filesToDelete env pages r ∧
    (delete_old_files env r false).1 =
      ((delete_old_files env r false).2.1.map (delCount env)).sum ∧
    ((filesToDelete env pages r).length = 2500 →
      (delete_old_files env r false).2.1.map List.length = [1000, 1000, 500]) := by
  rw [delete_old_files_run env pages r hc hl hok]
  refine ⟨?_, ?_, ?_, rfl, ?_⟩
  · exact chunkGo_length _ _ le_rfl
  · intro b hb
    exact chunkGo_mem_le _ _ b hb
  · exact chunkGo_join _ _ le_rfl
  · intro h2500
    exact chunk1000_len_2500 _ h2500

/-- Witness for C8 at a concrete input: one expired key, one batch. -/
theorem batch_partitioning_witness :
    (delete_old_files envOkBatch 3 false).2.1.length =
      ((filesToDelete envOkBatch pagesC6 3).length + 999) / 1000 ∧
    (∀ b ∈ (delete_old_files envOkBatch 3 false).2.1, b.length ≤ 1000) ∧
    (delete_old_files envOkBatch 3 false).2.1.flatten =
      filesToDelete envOkBatch pagesC6 3 ∧
    (delete_old_files envOkBatch 3 false).1 =
      ((delete_old_files envOkBatch 3 false).2.1.map (delCount envOkBatch)).sum ∧
    ((filesToDelete envOkBatch pagesC6 3).length = 2500 →
      (delete_old_files envOkBatch 3 false).2.1.map List.length =
        [1000, 1000, 500]) :=
  batch_partitioning envOkBatch pagesC6 3 rfl rfl
    (fun _ h => DelResp.noConfusion h)

/-- C7 counterexample: list_archive_files returns the empty list both when
the listing raises a ClientError and when the store is genuinely empty, so
a listing failure is returned as an empty enumeration marked as success
rather than as a storage error. -/
theorem archive_listing_error_empty :
    list_archive_files true 0 "" (Except.error ()) false = [] ∧
    list_archive_files true 0 "" (Except.ok []) false = [] :=
  ⟨rfl, rfl⟩

/-- C7 amended: enumeration follows continuation tokens through all N
pages and returns the concatenation of the pages, in order, each object
once; list_storage_files returns None (a storage error indication) when
any response fails mid-pagination, whereas list_archive_files concatenates
the Contents of its pages but returns the empty list on a ClientError,
indistinguishable from an empty enumeration. -/
theorem pagination_concatenation :
    (∀ pages : List (List String), pages ≠ [] →
      list_storage_files true (mkResponses pages) = some pages.flatten) ∧
    (∀ (pages : List (List String)) (rest : List LResp),
      list_storage_files true (pagesTrunc pages ++ LResp.err :: rest) = none) ∧
    (∀ (now : Int) (pfx : String) (pages : List (Option (List SObj))),
      list_archive_files true now pfx (Except.ok pages) false =
        (pages.filterMap id).flatten) ∧
    (∀ (now : Int) (pfx : String),
      list_archive_files true now pfx (Except.error ()) false = []) := by
  refine ⟨?_, ?_, ?_, ?_⟩
  · intro pages hne
    cases pages with
    | nil => exact absurd rfl hne
    | cons p rest =>
      cases rest with
      | nil => simp [mkResponses, list_storage_files]
      | cons q rest2 =>
        show list_storage_files true
          (LResp.page (some p) true :: mkResponses (q :: rest2)) = _
        rw [list_storage_files]
        simp only [Bool.not_true, Bool.false_eq_true, if_false]
        rw [if_pos trivial, listLoop_mkResponses (q :: rest2) p (by simp)]
        simp [List.flatten_cons]
  · intro pages rest
    cases pages with
    | nil => rfl
    | cons p ps =>
      show list_storage_files true
        (LResp.page (some p) true :: (pagesTrunc ps ++ LResp.err :: rest)) = none
      rw [list_storage_files]
      simp only [Bool.not_true, Bool.false_eq_true, if_false]
      rw [if_pos trivial]
      exact listLoop_truncErr ps p rest
  · intro now pfx pages
    exact flattenPages_eq pages
  · intro now pfx
    rfl

/-- Witness for the amended C7 at a concrete input: two pages. -/
theorem pagination_concatenation_witness :
    list_storage_files true (mkResponses [["a", "b"], ["c"]]) =
      some [["a", "b"], ["c"]].flatten ∧
    list_storage_files true (pagesTrunc [["a"]] ++ LResp.err :: []) = none :=
  ⟨pagination_concatenation.1 [["a", "b"], ["c"]] (by decide),
    pagination_concatenation.2.1 [["a"]] []⟩
